import Mathlib

/-!
Shallow embedding of `src/lambda_function/src/main.py` from the repository
`terraform-aws-lambda-auto-start-stop-ec2-autoscalinggroups`, together with
theorems settling the specification claims about it.

The Python code is a single class `CWScheduledEventManageEC2AutoScalingGroupsState`
with four methods:
  * `_get_ec2_auto_scaling_groups_by_tag` — paginated discovery of tagged
    auto-scaling groups;
  * `_stop_ec2_auto_scaling_groups` — suspend processes, then stop each instance;
  * `_start_ec2_auto_scaling_groups` — start each instance, wait for running,
    then resume processes;
  * `_execute` — the per-region dispatch.

Pure data flow is embedded as Lean functions on lists; the cloud side effects
are embedded as an explicit trace of `APICall` events emitted in program
order, and a failure semantics (`issuedCalls` / `runOk`) modelling Python
exceptions that propagate out of the workflow at the first failing call.
-/

/-- A tag attached to an auto-scaling group: `{'Key': ..., 'Value': ...}`. -/
structure ASGTag where
  key : String
  value : String
deriving DecidableEq, Repr

/-- A member instance of an auto-scaling group: `{'InstanceId': ...}`. -/
structure ASGInstance where
  instanceId : String
deriving DecidableEq, Repr

/-- One element of the `AutoScalingGroups` field of a describe page. -/
structure AutoScalingGroup where
  autoScalingGroupName : String
  tags : List ASGTag
  instances : List ASGInstance
deriving DecidableEq, Repr

/-- An element of the list built by `_get_ec2_auto_scaling_groups_by_tag`:
`{'name': ..., 'ec2_instance_ids': [...]}`. -/
structure ASGMatch where
  name : String
  ec2_instance_ids : List String
deriving DecidableEq, Repr

/-- The paginated response of `describe_auto_scaling_groups`: each page
carries its `AutoScalingGroups` list. -/
abbrev DescribePages := List (List AutoScalingGroup)

/--
`_get_ec2_auto_scaling_groups_by_tag` from `main.py` (lines 18–44), with the
paginated describe response passed in as data.  The Python loops append to
`ec2_auto_scaling_groups`; each loop is a `foldl` that appends, preserving
the exact accumulation order.  The tag loop has no `break`: the condition is
re-tested, and an entry appended, for every tag of the resource.
-/
def _get_ec2_auto_scaling_groups_by_tag (tag_key : String) (tag_value : String)
    (resource_pages : DescribePages) : List ASGMatch :=
  resource_pages.foldl (fun acc resource_page =>
    resource_page.foldl (fun acc resource =>
      resource.tags.foldl (fun acc tag =>
        if tag.key = tag_key ∧ tag.value = tag_value ∧ resource.instances.length > 0 then
          acc ++ [{ name := resource.autoScalingGroupName,
                    ec2_instance_ids := resource.instances.map (·.instanceId) }]
        else acc) acc) acc) []

/-- The entry appended for a resource each time one of its tags matches. -/
def matchOf (resource : AutoScalingGroup) : ASGMatch :=
  { name := resource.autoScalingGroupName,
    ec2_instance_ids := resource.instances.map (·.instanceId) }

lemma foldl_ite_append {α β : Type} (p : α → Prop) [DecidablePred p] (f : α → List β) :
    ∀ (xs : List α) (acc : List β),
      xs.foldl (fun a x => if p x then a ++ f x else a) acc
        = acc ++ xs.flatMap (fun x => if p x then f x else []) := by
  intro xs
  induction xs with
  | nil => intro acc; simp
  | cons x xs ih =>
    intro acc
    by_cases hx : p x <;> simp [hx, ih, List.append_assoc]

lemma get_asg_resources_foldl (tag_key tag_value : String) :
    ∀ (page : List AutoScalingGroup) (acc : List ASGMatch),
      page.foldl (fun acc resource =>
        resource.tags.foldl (fun acc tag =>
          if tag.key = tag_key ∧ tag.value = tag_value ∧ resource.instances.length > 0 then
            acc ++ [{ name := resource.autoScalingGroupName,
                      ec2_instance_ids := resource.instances.map (·.instanceId) }]
          else acc) acc) acc
        = acc ++ page.flatMap (fun resource =>
            resource.tags.flatMap (fun tag =>
              if tag.key = tag_key ∧ tag.value = tag_value ∧ resource.instances.length > 0 then
                [matchOf resource]
              else [])) := by
  intro page
  induction page with
  | nil => intro acc; simp
  | cons r page ih =>
    intro acc
    rw [List.foldl_cons, List.flatMap_cons,
      foldl_ite_append
        (fun tag => tag.key = tag_key ∧ tag.value = tag_value ∧ r.instances.length > 0)
        (fun _ => [{ name := r.autoScalingGroupName,
                     ec2_instance_ids := r.instances.map (·.instanceId) }]) r.tags acc,
      ih, List.append_assoc]
    simp only [matchOf]

/-- The discovery result in declarative form: one entry per page, per
resource, per tag matching the key/value (when the instance list is
non-empty). -/
lemma get_asg_eq_bind (tag_key tag_value : String) (pages : DescribePages) :
    _get_ec2_auto_scaling_groups_by_tag tag_key tag_value pages
      = pages.flatMap (fun page =>
          page.flatMap (fun resource =>
            resource.tags.flatMap (fun tag =>
              if tag.key = tag_key ∧ tag.value = tag_value ∧ resource.instances.length > 0 then
                [matchOf resource]
              else []))) := by
  unfold _get_ec2_auto_scaling_groups_by_tag
  show (List.foldl _ [] pages) = _
  have h : ∀ (ps : DescribePages) (acc : List ASGMatch),
      ps.foldl (fun acc resource_page =>
        resource_page.foldl (fun acc resource =>
          resource.tags.foldl (fun acc tag =>
            if tag.key = tag_key ∧ tag.value = tag_value ∧ resource.instances.length > 0 then
              acc ++ [{ name := resource.autoScalingGroupName,
                        ec2_instance_ids := resource.instances.map (·.instanceId) }]
            else acc) acc) acc) acc
        = acc ++ ps.flatMap (fun page =>
            page.flatMap (fun resource =>
              resource.tags.flatMap (fun tag =>
                if tag.key = tag_key ∧ tag.value = tag_value ∧ resource.instances.length > 0 then
                  [matchOf resource]
                else []))) := by
    intro ps
    induction ps with
    | nil => intro acc; simp
    | cons page ps ih =>
      intro acc
      rw [List.foldl_cons, List.flatMap_cons]
      show (List.foldl _ (List.foldl _ acc page) ps) = _
      rw [get_asg_resources_foldl tag_key tag_value page acc, ih, List.append_assoc]
  simpa using h pages []

/-- **C1.** A match appears in the discovery result iff some group in some
page has that name and those instance ids, carries a tag equal to the
configured key/value, and has a non-empty instance list. -/
theorem get_asg_mem_iff (tag_key tag_value : String) (pages : DescribePages)
    (m : ASGMatch) :
    m ∈ _get_ec2_auto_scaling_groups_by_tag tag_key tag_value pages
      ↔ ∃ page ∈ pages, ∃ resource ∈ page,
          m.name = resource.autoScalingGroupName
          ∧ m.ec2_instance_ids = resource.instances.map (·.instanceId)
          ∧ (∃ tag ∈ resource.tags, tag.key = tag_key ∧ tag.value = tag_value)
          ∧ resource.instances ≠ [] := by
  rw [get_asg_eq_bind]
  simp only [List.mem_flatMap]
  constructor
  · rintro ⟨page, hpage, resource, hres, tag, htag, hm⟩
    by_cases hc : tag.key = tag_key ∧ tag.value = tag_value ∧ resource.instances.length > 0
    · rw [if_pos hc] at hm
      simp only [List.mem_singleton] at hm
      subst hm
      exact ⟨page, hpage, resource, hres, rfl, rfl, ⟨tag, htag, hc.1, hc.2.1⟩,
        List.ne_nil_of_length_pos hc.2.2⟩
    · rw [if_neg hc] at hm
      exact absurd hm (List.not_mem_nil m)
  · rintro ⟨page, hpage, resource, hres, hname, hids, ⟨tag, htag, hk, hv⟩, hne⟩
    refine ⟨page, hpage, resource, hres, tag, htag, ?_⟩
    rw [if_pos ⟨hk, hv, List.length_pos.mpr hne⟩]
    simp only [List.mem_singleton]
    cases m
    simp only [matchOf, ASGMatch.mk.injEq]
    exact ⟨hname, hids⟩

/-- A cloud API call issued by the lambda, with its arguments.  One
constructor per boto3 call site in `main.py` (`describe_auto_scaling_groups`
via the paginator, `suspend_processes`, `resume_processes`,
`stop_instances`, `start_instances`, and the `instance_running` waiter). -/
inductive APICall where
  | describeAutoScalingGroups (region : String)
  | suspendProcesses (region : String) (autoScalingGroupName : String)
  | resumeProcesses (region : String) (autoScalingGroupName : String)
  | stopInstances (region : String) (instanceIds : List String)
  | startInstances (region : String) (instanceIds : List String)
  | waitInstanceRunning (region : String) (instanceIds : List String)
      (delay : Nat) (maxAttempts : Nat)
deriving DecidableEq, Repr

/--
Call trace of `_stop_ec2_auto_scaling_groups` (`main.py` lines 46–68): for
each group in order, `suspend_processes(AutoScalingGroupName=name)` followed
by one `stop_instances(InstanceIds=[id])` per member instance in order.
-/
def _stop_ec2_auto_scaling_groups (aws_region_name : String)
    (ec2_auto_scaling_groups : List ASGMatch) : List APICall :=
  ec2_auto_scaling_groups.foldl (fun calls g =>
    g.ec2_instance_ids.foldl
      (fun calls ec2_instance_id =>
        calls ++ [APICall.stopInstances aws_region_name [ec2_instance_id]])
      (calls ++ [APICall.suspendProcesses aws_region_name g.name])) []

/--
Call trace of `_start_ec2_auto_scaling_groups` (`main.py` lines 70–99): for
each group in order, one `start_instances(InstanceIds=[id])` per member
instance in order, then the `instance_running` waiter on the whole member
list with `WaiterConfig={'Delay': 15, 'MaxAttempts': 30}`, then
`resume_processes(AutoScalingGroupName=name)`.
-/
def _start_ec2_auto_scaling_groups (aws_region_name : String)
    (ec2_auto_scaling_groups : List ASGMatch) : List APICall :=
  ec2_auto_scaling_groups.foldl (fun calls g =>
    (g.ec2_instance_ids.foldl
      (fun calls ec2_instance_id =>
        calls ++ [APICall.startInstances aws_region_name [ec2_instance_id]])
      calls)
    ++ [APICall.waitInstanceRunning aws_region_name g.ec2_instance_ids 15 30,
        APICall.resumeProcesses aws_region_name g.name]) []

lemma foldl_append_singletons {α β : Type} (f : α → β) :
    ∀ (xs : List α) (acc : List β),
      xs.foldl (fun a x => a ++ [f x]) acc = acc ++ xs.map f := by
  intro xs
  induction xs with
  | nil => intro acc; simp
  | cons x xs ih => intro acc; simp [ih, List.append_assoc]

lemma stop_foldl_general (region : String) :
    ∀ (groups : List ASGMatch) (acc : List APICall),
      groups.foldl (fun calls g =>
        g.ec2_instance_ids.foldl
          (fun calls i => calls ++ [APICall.stopInstances region [i]])
          (calls ++ [APICall.suspendProcesses region g.name])) acc
      = acc ++ (groups.map (fun g =>
          APICall.suspendProcesses region g.name
            :: g.ec2_instance_ids.map (fun i => APICall.stopInstances region [i]))).flatten := by
  intro groups
  induction groups with
  | nil => intro acc; simp
  | cons g gs ih =>
    intro acc
    rw [List.foldl_cons,
      foldl_append_singletons (fun i => APICall.stopInstances region [i]) g.ec2_instance_ids,
      ih, List.map_cons, List.flatten_cons]
    simp [List.append_assoc]

lemma start_foldl_general (region : String) :
    ∀ (groups : List ASGMatch) (acc : List APICall),
      groups.foldl (fun calls g =>
        (g.ec2_instance_ids.foldl
          (fun calls i => calls ++ [APICall.startInstances region [i]]) calls)
        ++ [APICall.waitInstanceRunning region g.ec2_instance_ids 15 30,
            APICall.resumeProcesses region g.name]) acc
      = acc ++ (groups.map (fun g =>
          g.ec2_instance_ids.map (fun i => APICall.startInstances region [i])
            ++ [APICall.waitInstanceRunning region g.ec2_instance_ids 15 30,
                APICall.resumeProcesses region g.name])).flatten := by
  intro groups
  induction groups with
  | nil => intro acc; simp
  | cons g gs ih =>
    intro acc
    rw [List.foldl_cons,
      foldl_append_singletons (fun i => APICall.startInstances region [i]) g.ec2_instance_ids,
      ih, List.map_cons, List.flatten_cons]
    simp [List.append_assoc]

/-- **C3.** The stop-workflow trace is, group by group in list order, the
`suspend_processes` call followed by one single-instance `stop_instances`
call per member instance in order: the suspend call precedes every stop call
issued for that group, and every stop call carries exactly one instance id. -/
theorem stop_trace_structure (region : String) (groups : List ASGMatch) :
    _stop_ec2_auto_scaling_groups region groups
      = (groups.map (fun g =>
          APICall.suspendProcesses region g.name
            :: g.ec2_instance_ids.map (fun i => APICall.stopInstances region [i]))).flatten := by
  unfold _stop_ec2_auto_scaling_groups
  simpa using stop_foldl_general region groups []

/-- **C4.** The start-workflow trace is, group by group in list order, one
single-instance `start_instances` call per member instance, then the
running-state waiter on the full member list, then `resume_processes`: every
member start call precedes the group's wait, and the resume call comes after
the wait. -/
theorem start_trace_structure (region : String) (groups : List ASGMatch) :
    _start_ec2_auto_scaling_groups region groups
      = (groups.map (fun g =>
          g.ec2_instance_ids.map (fun i => APICall.startInstances region [i])
            ++ [APICall.waitInstanceRunning region g.ec2_instance_ids 15 30,
                APICall.resumeProcesses region g.name])).flatten := by
  unfold _start_ec2_auto_scaling_groups
  simpa using start_foldl_general region groups []

/--
Failure semantics for a sequence of cloud calls: each call either succeeds
or raises (`fails c = true`).  `issuedCalls` is the list of calls actually
issued: calls run in program order, the first failing call is issued and its
exception propagates, so nothing after it runs and nothing already issued is
undone (the Python code has no try/except and no compensation logic).
-/
def issuedCalls (fails : APICall → Bool) : List APICall → List APICall
  | [] => []
  | c :: cs => if fails c then [c] else c :: issuedCalls fails cs

/-- Whether a sequence of calls completes without an exception. -/
def runOk (fails : APICall → Bool) : List APICall → Bool
  | [] => true
  | c :: cs => if fails c then false else runOk fails cs

lemma mem_issuedCalls (fails : APICall → Bool) :
    ∀ (T : List APICall) (c : APICall), c ∈ issuedCalls fails T → c ∈ T := by
  intro T
  induction T with
  | nil => intro c hc; exact absurd hc (List.not_mem_nil c)
  | cons d ds ih =>
    intro c hc
    by_cases h : fails d = true
    · simp only [issuedCalls, if_pos h, List.mem_singleton] at hc
      simp [hc]
    · simp only [issuedCalls, if_neg h, List.mem_cons] at hc
      rcases hc with hc | hc
      · simp [hc]
      · exact List.mem_cons_of_mem d (ih c hc)

lemma issuedCalls_append (fails : APICall → Bool) :
    ∀ (xs ys : List APICall),
      issuedCalls fails (xs ++ ys)
        = if xs.any fails then issuedCalls fails xs else xs ++ issuedCalls fails ys := by
  intro xs
  induction xs with
  | nil => intro ys; simp [issuedCalls]
  | cons c cs ih =>
    intro ys
    by_cases hc : fails c = true
    · simp [issuedCalls, hc]
    · rw [List.cons_append]
      simp only [issuedCalls, if_neg hc, List.any_cons, hc, Bool.false_or, ih]
      by_cases hcs : cs.any fails = true <;> simp [hcs]

lemma runOk_eq_false_of_mem (fails : APICall → Bool) :
    ∀ (T : List APICall) (c : APICall), c ∈ T → fails c = true → runOk fails T = false := by
  intro T
  induction T with
  | nil => intro c hc; exact absurd hc (List.not_mem_nil c)
  | cons d ds ih =>
    intro c hc hfc
    rcases List.mem_cons.mp hc with h | h
    · subst h; simp [runOk, hfc]
    · by_cases hd : fails d = true
      · simp [runOk, hd]
      · simp [runOk, hd, ih c h hfc]

/-- Exceptions stop the run at the first failing call: the issued calls are
exactly the successful prefix followed by the failing call itself. -/
lemma issued_first_fail (fails : APICall → Bool) :
    ∀ T : List APICall, (∃ c ∈ T, fails c = true) →
      ∃ pre c post, T = pre ++ c :: post ∧ fails c = true
        ∧ (∀ x ∈ pre, fails x = false)
        ∧ issuedCalls fails T = pre ++ [c]
        ∧ runOk fails T = false := by
  intro T
  induction T with
  | nil => rintro ⟨c, hc, -⟩; exact absurd hc (List.not_mem_nil c)
  | cons c cs ih =>
    rintro ⟨d, hd, hfd⟩
    by_cases hc : fails c = true
    · exact ⟨[], c, cs, rfl, hc, by simp, by simp [issuedCalls, hc], by simp [runOk, hc]⟩
    · have hcs : ∃ x ∈ cs, fails x = true := by
        rcases List.mem_cons.mp hd with h | h
        · subst h; exact absurd hfd hc
        · exact ⟨d, h, hfd⟩
      obtain ⟨pre, e, post, hT, hfe, hpre, hiss, hok⟩ := ih hcs
      refine ⟨c :: pre, e, post, by rw [List.cons_append, hT], hfe, ?_, ?_, ?_⟩
      · intro x hx
        rcases List.mem_cons.mp hx with h | h
        · subst h
          simp only [Bool.not_eq_true] at hc
          exact hc
        · exact hpre x h
      · simp [issuedCalls, hc, hiss]
      · simp [runOk, hc, hok]

/-- **C8.** If any call of the stop workflow fails, the run fails (the
exception propagates uncaught), the issued calls are exactly the successful
prefix plus the first failing call — no suspend or stop call after it is
issued — and that trace is kept as is: nothing is undone or compensated. -/
theorem stop_failure_propagates (region : String) (groups : List ASGMatch)
    (fails : APICall → Bool)
    (h : ∃ c ∈ _stop_ec2_auto_scaling_groups region groups, fails c = true) :
    runOk fails (_stop_ec2_auto_scaling_groups region groups) = false
    ∧ ∃ pre c post,
        _stop_ec2_auto_scaling_groups region groups = pre ++ c :: post
        ∧ fails c = true
        ∧ (∀ x ∈ pre, fails x = false)
        ∧ issuedCalls fails (_stop_ec2_auto_scaling_groups region groups) = pre ++ [c] := by
  obtain ⟨pre, c, post, hT, hfc, hpre, hiss, hok⟩ :=
    issued_first_fail fails (_stop_ec2_auto_scaling_groups region groups) h
  exact ⟨hok, pre, c, post, hT, hfc, hpre, hiss⟩

/-- Groups used in the concrete stop-failure scenario. -/
def stopCexGroups : List ASGMatch :=
  [{ name := "G1", ec2_instance_ids := ["i-1", "i-2"] },
   { name := "G2", ec2_instance_ids := ["i-3"] }]

/-- Failure oracle for the concrete stop-failure scenario: the stop call for
instance `i-2` raises.  -/
def stopCexFails : APICall → Bool :=
  fun c => c == APICall.stopInstances "eu-west-1" ["i-2"]

theorem stop_failure_propagates_witness :
    runOk stopCexFails (_stop_ec2_auto_scaling_groups "eu-west-1" stopCexGroups) = false :=
  (stop_failure_propagates "eu-west-1" stopCexGroups stopCexFails (by decide)).1

/-- The per-group segment of the start-workflow trace. -/
def startSegment (region : String) (g : ASGMatch) : List APICall :=
  g.ec2_instance_ids.map (fun i => APICall.startInstances region [i])
    ++ [APICall.waitInstanceRunning region g.ec2_instance_ids 15 30,
        APICall.resumeProcesses region g.name]

lemma start_trace_eq (region : String) (groups : List ASGMatch) :
    _start_ec2_auto_scaling_groups region groups
      = (groups.map (startSegment region)).flatten := by
  unfold _start_ec2_auto_scaling_groups startSegment
  simpa using start_foldl_general region groups []


lemma resume_mem_startSegment (region : String) (g : ASGMatch) (r n : String)
    (h : APICall.resumeProcesses r n ∈ startSegment region g) :
    r = region ∧ n = g.name := by
  simp only [startSegment, List.mem_append, List.mem_map, List.mem_cons,
    List.mem_singleton] at h
  rcases h with ⟨i, -, h⟩ | h | h | h
  all_goals simp_all

lemma wait_mem_startSegment (region : String) (g : ASGMatch) (r : String)
    (ids : List String) (d n : Nat)
    (h : APICall.waitInstanceRunning r ids d n ∈ startSegment region g) :
    r = region ∧ ids = g.ec2_instance_ids ∧ d = 15 ∧ n = 30 := by
  simp only [startSegment, List.mem_append, List.mem_map, List.mem_cons,
    List.mem_singleton] at h
  rcases h with ⟨i, -, h⟩ | h | h | h
  all_goals simp_all

lemma wait_mem_start_trace (region : String) (groups : List ASGMatch)
    (g : ASGMatch) (hg : g ∈ groups) :
    APICall.waitInstanceRunning region g.ec2_instance_ids 15 30
      ∈ (groups.map (startSegment region)).flatten := by
  rw [List.mem_flatten]
  exact ⟨startSegment region g, List.mem_map_of_mem (startSegment region) hg,
    by simp [startSegment]⟩

lemma resume_not_issued_of_wait_fails (region : String) (fails : APICall → Bool) :
    ∀ (groups : List ASGMatch) (g : ASGMatch),
      (groups.map ASGMatch.name).Nodup → g ∈ groups →
      fails (APICall.waitInstanceRunning region g.ec2_instance_ids 15 30) = true →
      APICall.resumeProcesses region g.name
        ∉ issuedCalls fails ((groups.map (startSegment region)).flatten) := by
  intro groups
  induction groups with
  | nil => intro g _ hg _; exact absurd hg (List.not_mem_nil g)
  | cons h gs ih =>
    intro g hnd hg hfail hmem
    rw [List.map_cons, List.flatten_cons, issuedCalls_append] at hmem
    rw [List.map_cons, List.nodup_cons] at hnd
    rcases List.mem_cons.mp hg with hgh | hgtail
    · -- the failing group is the head group of the list
      subst hgh
      have hany : (startSegment region g).any fails = true :=
        List.any_eq_true.mpr ⟨_, by simp [startSegment], hfail⟩
      rw [if_pos hany] at hmem
      simp only [startSegment] at hmem
      rw [issuedCalls_append] at hmem
      by_cases hstarts :
          (g.ec2_instance_ids.map (fun i => APICall.startInstances region [i])).any fails = true
      · rw [if_pos hstarts] at hmem
        have := mem_issuedCalls fails _ _ hmem
        simp at this
      · rw [if_neg hstarts] at hmem
        rcases List.mem_append.mp hmem with hmem | hmem
        · simp at hmem
        · simp only [issuedCalls, hfail, if_pos, List.mem_singleton] at hmem
          exact absurd hmem (by simp)
      -- the resume call equals neither a start call nor the wait call
    · -- the failing group lies in the tail of the list
      have hname : g.name ∈ gs.map ASGMatch.name :=
        List.mem_map_of_mem ASGMatch.name hgtail
      by_cases hseg : (startSegment region h).any fails = true
      · rw [if_pos hseg] at hmem
        have hx := mem_issuedCalls fails _ _ hmem
        have := (resume_mem_startSegment region h region g.name hx).2
        rw [this] at hname
        exact hnd.1 hname
      · rw [if_neg hseg] at hmem
        rcases List.mem_append.mp hmem with hx | hx
        · have := (resume_mem_startSegment region h region g.name hx).2
          rw [this] at hname
          exact hnd.1 hname
        · exact ih g hnd.2 hgtail hfail hx

/-- **C6.** Every waiter call in the start-workflow trace carries the fixed
`WaiterConfig` of a 15-second delay and 30 max attempts; and if the waiter
for some matched group exhausts its budget (its call raises), the run fails
and the `resume_processes` call for that group is never issued. -/
theorem start_wait_timeout_aborts (region : String) (groups : List ASGMatch)
    (fails : APICall → Bool) (g : ASGMatch)
    (hnd : (groups.map ASGMatch.name).Nodup) (hg : g ∈ groups)
    (hfail : fails (APICall.waitInstanceRunning region g.ec2_instance_ids 15 30) = true) :
    (∀ (r : String) (ids : List String) (d n : Nat),
        APICall.waitInstanceRunning r ids d n ∈ _start_ec2_auto_scaling_groups region groups
          → d = 15 ∧ n = 30)
    ∧ runOk fails (_start_ec2_auto_scaling_groups region groups) = false
    ∧ APICall.resumeProcesses region g.name
        ∉ issuedCalls fails (_start_ec2_auto_scaling_groups region groups) := by
  rw [start_trace_eq]
  refine ⟨?_, ?_, ?_⟩
  · intro r ids d n hmem
    rw [List.mem_flatten] at hmem
    obtain ⟨seg, hseg, hin⟩ := hmem
    rw [List.mem_map] at hseg
    obtain ⟨g', -, rfl⟩ := hseg
    exact ⟨(wait_mem_startSegment region g' r ids d n hin).2.2.1,
      (wait_mem_startSegment region g' r ids d n hin).2.2.2⟩
  · exact runOk_eq_false_of_mem fails _ _ (wait_mem_start_trace region groups g hg) hfail
  · exact resume_not_issued_of_wait_fails region fails groups g hnd hg hfail

/-- The single matched group of the concrete start-timeout scenario. -/
def startCexGroups : List ASGMatch :=
  [{ name := "G", ec2_instance_ids := ["i-1"] }]

/-- Failure oracle for the concrete start-timeout scenario: every waiter
call exhausts its attempt budget and raises; every other call succeeds. -/
def startCexFails : APICall → Bool
  | APICall.waitInstanceRunning _ _ _ _ => true
  | _ => false

theorem start_wait_timeout_aborts_witness :
    runOk startCexFails (_start_ec2_auto_scaling_groups "us-east-1" startCexGroups) = false
    ∧ APICall.resumeProcesses "us-east-1" "G"
        ∉ issuedCalls startCexFails (_start_ec2_auto_scaling_groups "us-east-1" startCexGroups) :=
  ⟨(start_wait_timeout_aborts "us-east-1" startCexGroups startCexFails
      { name := "G", ec2_instance_ids := ["i-1"] } (by decide) (by decide) (by decide)).2.1,
   (start_wait_timeout_aborts "us-east-1" startCexGroups startCexFails
      { name := "G", ec2_instance_ids := ["i-1"] } (by decide) (by decide) (by decide)).2.2⟩

/-- Call trace of `_get_ec2_auto_scaling_groups_by_tag`: the boto3 paginator
(`get_paginator('describe_auto_scaling_groups').paginate()`) issues one
describe call per page of the response; the function issues nothing else. -/
def _get_ec2_auto_scaling_groups_by_tag_calls (aws_region_name : String)
    (resource_pages : DescribePages) : List APICall :=
  resource_pages.map (fun _ => APICall.describeAutoScalingGroups aws_region_name)

/-- Modelled from the spec: the success envelope built by
`_build_response_ok` of the shared base class `LambdaFunctionBase`
(imported via `from base import LambdaFunctionBase`; its code is not part of
this repository).  The spec says only that a standard success envelope
object is returned on completion, so it is modelled as a single
distinguished success value. -/
inductive LambdaResponse where
  | ok
deriving DecidableEq, Repr

/-- Modelled from the spec: `self._build_response_ok()` of the shared base
class returns the standard success envelope. -/
def _build_response_ok : LambdaResponse := LambdaResponse.ok

/-- The class-level configuration read from the environment (`main.py`
lines 13–16); `AWS_REGIONS` is already split on commas. -/
structure Config where
  ACTION : String
  RESOURCE_TAG_KEY : String
  RESOURCE_TAG_VALUE : String
  AWS_REGIONS : List String
deriving DecidableEq, Repr

/-- The body of the per-region loop of `_execute` (`main.py` lines 105–120):
run discovery in the region, then, when at least one group matched, branch
on `ACTION` — `['enable', 'start']` routes to the start workflow,
`['disable', 'stop']` to the stop workflow, anything else does nothing. -/
def regionCalls (cfg : Config) (cloud : String → DescribePages)
    (aws_region_name : String) : List APICall :=
  _get_ec2_auto_scaling_groups_by_tag_calls aws_region_name (cloud aws_region_name)
    ++ (let ec2_auto_scaling_groups :=
          _get_ec2_auto_scaling_groups_by_tag cfg.RESOURCE_TAG_KEY cfg.RESOURCE_TAG_VALUE
            (cloud aws_region_name)
        if ec2_auto_scaling_groups.length > 0 then
          if cfg.ACTION ∈ (["enable", "start"] : List String) then
            _start_ec2_auto_scaling_groups aws_region_name ec2_auto_scaling_groups
          else if cfg.ACTION ∈ (["disable", "stop"] : List String) then
            _stop_ec2_auto_scaling_groups aws_region_name ec2_auto_scaling_groups
          else []
        else [])

/-- `_execute` (`main.py` lines 101–124): the event and context parameters
are unused (`pylint: disable=W0613` in the source); the regions are
processed in configuration order and the success envelope is returned.  The
result is the full call trace paired with the returned response. -/
def _execute {α β : Type} (event : α) (context : β) (cfg : Config)
    (cloud : String → DescribePages) : List APICall × LambdaResponse :=
  (cfg.AWS_REGIONS.foldl
    (fun calls aws_region_name => calls ++ regionCalls cfg cloud aws_region_name) [],
   _build_response_ok)

lemma foldl_append_flatten {α β : Type} (f : α → List β) :
    ∀ (xs : List α) (acc : List β),
      xs.foldl (fun a x => a ++ f x) acc = acc ++ (xs.map f).flatten := by
  intro xs
  induction xs with
  | nil => intro acc; simp
  | cons x xs ih => intro acc; simp [ih, List.append_assoc]

/-- **C10.** Discovery is read-only: every call in the call trace of
`_get_ec2_auto_scaling_groups_by_tag` is a paginated describe call for the
given region — in particular none is a suspend, resume, start or stop
call — so the discovery step changes no cloud state. -/
theorem discovery_read_only (aws_region_name : String) (pages : DescribePages)
    (c : APICall) (hc : c ∈ _get_ec2_auto_scaling_groups_by_tag_calls aws_region_name pages) :
    c = APICall.describeAutoScalingGroups aws_region_name := by
  simp only [_get_ec2_auto_scaling_groups_by_tag_calls, List.mem_map] at hc
  obtain ⟨page, -, rfl⟩ := hc
  rfl

theorem discovery_read_only_witness :
    APICall.describeAutoScalingGroups "eu-west-3" = APICall.describeAutoScalingGroups "eu-west-3" :=
  discovery_read_only "eu-west-3" [[]] (APICall.describeAutoScalingGroups "eu-west-3") (by decide)

lemma runOk_eq_true_iff (fails : APICall → Bool) :
    ∀ T : List APICall, runOk fails T = true ↔ ∀ c ∈ T, fails c = false := by
  intro T
  induction T with
  | nil => simp [runOk]
  | cons c cs ih =>
    by_cases hc : fails c = true
    · simp [runOk, hc]
    · simp only [Bool.not_eq_true] at hc
      simp [runOk, hc, ih]

/-- **C7.** `_execute` processes the configured regions one after another in
configuration order — for each region the paginated discovery describes come
first, then the branch on `ACTION` (start workflow for `enable`/`start`,
stop workflow for `disable`/`stop`, nothing otherwise, and nothing when no
group matched) — and returns the single success envelope, with no per-region
aggregation in the result. -/
theorem execute_processes_regions_in_order {α β : Type} (event : α) (context : β)
    (cfg : Config) (cloud : String → DescribePages) :
    _execute event context cfg cloud
      = ((cfg.AWS_REGIONS.map (fun aws_region_name =>
            _get_ec2_auto_scaling_groups_by_tag_calls aws_region_name (cloud aws_region_name)
              ++ (if (_get_ec2_auto_scaling_groups_by_tag cfg.RESOURCE_TAG_KEY
                        cfg.RESOURCE_TAG_VALUE (cloud aws_region_name)).length > 0 then
                    if cfg.ACTION ∈ (["enable", "start"] : List String) then
                      _start_ec2_auto_scaling_groups aws_region_name
                        (_get_ec2_auto_scaling_groups_by_tag cfg.RESOURCE_TAG_KEY
                          cfg.RESOURCE_TAG_VALUE (cloud aws_region_name))
                    else if cfg.ACTION ∈ (["disable", "stop"] : List String) then
                      _stop_ec2_auto_scaling_groups aws_region_name
                        (_get_ec2_auto_scaling_groups_by_tag cfg.RESOURCE_TAG_KEY
                          cfg.RESOURCE_TAG_VALUE (cloud aws_region_name))
                    else []
                  else []))).flatten,
         _build_response_ok) := by
  unfold _execute regionCalls
  rw [foldl_append_flatten]
  simp

lemma action_branch_empty (cfg : Config) (cloud : String → DescribePages)
    (r : String) (h : cfg.ACTION ∉ (["enable", "start", "disable", "stop"] : List String)) :
    regionCalls cfg cloud r
      = _get_ec2_auto_scaling_groups_by_tag_calls r (cloud r) := by
  have h1 : cfg.ACTION ∉ (["enable", "start"] : List String) := by
    intro hx; apply h; simp at hx ⊢; tauto
  have h2 : cfg.ACTION ∉ (["disable", "stop"] : List String) := by
    intro hx; apply h; simp at hx ⊢; tauto
  simp [regionCalls, h1, h2]

/-- **C5.** For an `ACTION` outside the case-sensitive set
`{enable, start, disable, stop}`, `_execute` issues only the discovery
describe calls — never a start, stop, suspend or resume call in any
region — completes without error when describes succeed, and still returns
the success envelope. -/
theorem unrecognized_action_is_noop {α β : Type} (event : α) (context : β)
    (cfg : Config) (cloud : String → DescribePages)
    (h : cfg.ACTION ∉ (["enable", "start", "disable", "stop"] : List String)) :
    (∀ c ∈ (_execute event context cfg cloud).1,
        ∃ r, c = APICall.describeAutoScalingGroups r)
    ∧ (∀ fails : APICall → Bool,
        (∀ r, fails (APICall.describeAutoScalingGroups r) = false) →
        runOk fails (_execute event context cfg cloud).1 = true)
    ∧ (_execute event context cfg cloud).2 = _build_response_ok := by
  have hmem : ∀ c ∈ (_execute event context cfg cloud).1,
      ∃ r, c = APICall.describeAutoScalingGroups r := by
    intro c hc
    unfold _execute at hc
    rw [foldl_append_flatten] at hc
    simp only [List.nil_append, List.mem_flatten, List.mem_map] at hc
    obtain ⟨seg, ⟨r, -, rfl⟩, hin⟩ := hc
    rw [action_branch_empty cfg cloud r h] at hin
    simp only [_get_ec2_auto_scaling_groups_by_tag_calls, List.mem_map] at hin
    obtain ⟨page, -, rfl⟩ := hin
    exact ⟨r, rfl⟩
  refine ⟨hmem, ?_, rfl⟩
  intro fails hdesc
  rw [runOk_eq_true_iff]
  intro c hc
  obtain ⟨r, rfl⟩ := hmem c hc
  exact hdesc r
/-- Configuration of the concrete unrecognized-action scenario: `"Start"`
differs from `"start"` by case. -/
def noopCfg : Config :=
  { ACTION := "Start", RESOURCE_TAG_KEY := "env", RESOURCE_TAG_VALUE := "prod",
    AWS_REGIONS := ["us-east-1"] }

/-- The region in the concrete unrecognized-action scenario holds a
correctly tagged group with one instance, so only the action gate prevents a
workflow from running. -/
def noopCloud : String → DescribePages :=
  fun _ => [[{ autoScalingGroupName := "G",
               tags := [{ key := "env", value := "prod" }],
               instances := [{ instanceId := "i-1" }] }]]

theorem unrecognized_action_is_noop_witness :
    runOk (fun _ => false) (_execute (0 : Nat) "ctx" noopCfg noopCloud).1 = true
    ∧ (_execute (0 : Nat) "ctx" noopCfg noopCloud).2 = _build_response_ok :=
  ⟨(unrecognized_action_is_noop (0 : Nat) "ctx" noopCfg noopCloud
      (by decide)).2.1 (fun _ => false) (fun _ => rfl),
   (unrecognized_action_is_noop (0 : Nat) "ctx" noopCfg noopCloud (by decide)).2.2⟩

/-- **C9.** The event payload and execution context do not influence
`_execute` at all: for any two events and contexts (even of different
types) and the same configuration and cloud responses, the call trace and
the returned envelope are identical. -/
theorem execute_ignores_event_and_context {α β γ δ : Type}
    (event1 : α) (context1 : β) (event2 : γ) (context2 : δ)
    (cfg : Config) (cloud : String → DescribePages) :
    _execute event1 context1 cfg cloud = _execute event2 context2 cfg cloud := rfl

/-- A listing with a single group that carries the matching key/value twice
among its tags (the group itself occurs exactly once in the listing). -/
def dupTagPages : DescribePages :=
  [[{ autoScalingGroupName := "G",
      tags := [{ key := "k", value := "v" }, { key := "k", value := "v" }],
      instances := [{ instanceId := "i-1" }] }]]

/-- **C2, counterexample.** The tag loop of
`_get_ec2_auto_scaling_groups_by_tag` has no `break`, so a group whose tag
list matches the configured key/value twice is appended twice: on a listing
in which each group occurs once, the matched group occurs more than once in
the result. -/
theorem get_asg_duplicate_counterexample :
    dupTagPages.flatten.Nodup
    ∧ 1 < (_get_ec2_auto_scaling_groups_by_tag "k" "v" dupTagPages).count
            { name := "G", ec2_instance_ids := ["i-1"] } := by
  constructor
  · decide
  · decide

/-- The entries the discovery loop appends for one resource: one copy of
`matchOf resource` per tag matching the configured key/value (none when the
instance list is empty). -/
def tagEntries (tag_key tag_value : String) (resource : AutoScalingGroup) : List ASGMatch :=
  resource.tags.flatMap (fun tag =>
    if tag.key = tag_key ∧ tag.value = tag_value ∧ resource.instances.length > 0 then
      [matchOf resource]
    else [])

lemma flatMap_flatMap_eq_flatten {α β : Type} (f : α → List β) :
    ∀ (xss : List (List α)),
      xss.flatMap (fun xs => xs.flatMap f) = xss.flatten.flatMap f := by
  intro xss
  induction xss with
  | nil => simp
  | cons xs xss ih => simp [ih]

lemma get_asg_eq_flatten_flatMap (tag_key tag_value : String) (pages : DescribePages) :
    _get_ec2_auto_scaling_groups_by_tag tag_key tag_value pages
      = pages.flatten.flatMap (tagEntries tag_key tag_value) := by
  rw [get_asg_eq_bind, ← flatMap_flatMap_eq_flatten]
  rfl

lemma mem_tagEntries (tag_key tag_value : String) (resource : AutoScalingGroup)
    (x : ASGMatch) (hx : x ∈ tagEntries tag_key tag_value resource) :
    x = matchOf resource := by
  simp only [tagEntries, List.mem_flatMap] at hx
  obtain ⟨tag, -, hx⟩ := hx
  by_cases hc : tag.key = tag_key ∧ tag.value = tag_value ∧ resource.instances.length > 0
  · rw [if_pos hc] at hx
    simpa using hx
  · rw [if_neg hc] at hx
    exact absurd hx (List.not_mem_nil x)

lemma length_flatMap_ite {α β : Type} (p : α → Prop) [DecidablePred p] (y : β) :
    ∀ xs : List α,
      (xs.flatMap (fun x => if p x then [y] else [])).length
        = xs.countP (fun x => decide (p x)) := by
  intro xs
  induction xs with
  | nil => simp
  | cons x xs ih => by_cases hx : p x <;> simp [List.countP_cons, hx, ih]

lemma tagEntries_length (tag_key tag_value : String) (resource : AutoScalingGroup) :
    (tagEntries tag_key tag_value resource).length
      = resource.tags.countP (fun tag =>
          decide (tag.key = tag_key ∧ tag.value = tag_value ∧ resource.instances.length > 0)) := by
  unfold tagEntries
  exact length_flatMap_ite
    (fun tag => tag.key = tag_key ∧ tag.value = tag_value ∧ resource.instances.length > 0)
    (matchOf resource) resource.tags

lemma tagEntries_shape (tag_key tag_value : String) (resource : AutoScalingGroup)
    (h : resource.tags.countP
          (fun tag => decide (tag.key = tag_key ∧ tag.value = tag_value)) ≤ 1) :
    tagEntries tag_key tag_value resource = []
      ∨ tagEntries tag_key tag_value resource = [matchOf resource] := by
  have hle : (tagEntries tag_key tag_value resource).length ≤ 1 := by
    rw [tagEntries_length]
    refine le_trans (List.countP_mono_left ?_) h
    intro tag _ htag
    simp only [decide_eq_true_eq] at htag ⊢
    exact ⟨htag.1, htag.2.1⟩
  rcases he : tagEntries tag_key tag_value resource with - | ⟨x, - | ⟨y, rest⟩⟩
  · exact Or.inl rfl
  · exact Or.inr (by rw [mem_tagEntries tag_key tag_value resource x (by rw [he]; simp)])
  · rw [he] at hle
    simp at hle

lemma nodup_flatMap_tagEntries (tag_key tag_value : String) :
    ∀ rs : List AutoScalingGroup,
      (rs.map AutoScalingGroup.autoScalingGroupName).Nodup →
      (∀ r ∈ rs,
        r.tags.countP (fun tag => decide (tag.key = tag_key ∧ tag.value = tag_value)) ≤ 1) →
      (rs.flatMap (tagEntries tag_key tag_value)).Nodup := by
  intro rs
  induction rs with
  | nil => intro _ _; simp
  | cons r rs ih =>
    intro hnd htags
    rw [List.map_cons, List.nodup_cons] at hnd
    rw [List.flatMap_cons]
    have hrest : (rs.flatMap (tagEntries tag_key tag_value)).Nodup :=
      ih hnd.2 (fun r' hr' => htags r' (List.mem_cons_of_mem r hr'))
    have hnotin : matchOf r ∉ rs.flatMap (tagEntries tag_key tag_value) := by
      intro hmem
      rw [List.mem_flatMap] at hmem
      obtain ⟨r', hr', hx⟩ := hmem
      have := mem_tagEntries tag_key tag_value r' (matchOf r) hx
      have hname : r.autoScalingGroupName = r'.autoScalingGroupName :=
        congrArg ASGMatch.name this
      exact hnd.1 (hname ▸ List.mem_map_of_mem AutoScalingGroup.autoScalingGroupName hr')
    rcases tagEntries_shape tag_key tag_value r (htags r (List.mem_cons_self r rs)) with he | he
    · rw [he]; simpa using hrest
    · rw [he]
      exact List.nodup_cons.mpr ⟨hnotin, hrest⟩

/-- **C2, amended.** The discovery result holds one entry per matching tag,
not per group; it is duplicate-free provided, in addition, that group names
in the listing are distinct and no group carries the configured key/value
pair on more than one tag (as the cloud platform's unique-tag-key rule
guarantees for real listings). -/
theorem get_asg_nodup_of_unique_names_and_tags (tag_key tag_value : String)
    (pages : DescribePages)
    (hnames : (pages.flatten.map AutoScalingGroup.autoScalingGroupName).Nodup)
    (htags : ∀ r ∈ pages.flatten,
        r.tags.countP (fun tag => decide (tag.key = tag_key ∧ tag.value = tag_value)) ≤ 1) :
    (_get_ec2_auto_scaling_groups_by_tag tag_key tag_value pages).Nodup := by
  rw [get_asg_eq_flatten_flatMap]
  exact nodup_flatMap_tagEntries tag_key tag_value pages.flatten hnames htags

/-- The listing of the concrete duplicate-freedom scenario: two groups with
distinct names, each carrying the matching tag exactly once. -/
def nodupPages : DescribePages :=
  [[{ autoScalingGroupName := "G1",
      tags := [{ key := "k", value := "v" }, { key := "team", value := "a" }],
      instances := [{ instanceId := "i-1" }, { instanceId := "i-2" }] }],
   [{ autoScalingGroupName := "G2",
      tags := [{ key := "k", value := "v" }],
      instances := [{ instanceId := "i-3" }] }]]

theorem get_asg_nodup_witness :
    (_get_ec2_auto_scaling_groups_by_tag "k" "v" nodupPages).Nodup :=
  get_asg_nodup_of_unique_names_and_tags "k" "v" nodupPages (by decide) (by decide)
